import Mathlib

/-!
Verification of the `git-ls` rendering pipeline (`main.go`) against its
natural-language specification.

The Go source is shallowly embedded: Go strings are Lean `String`s (the
program only manipulates them rune-by-rune, which `String.data : List Char`
models exactly for the ASCII data handled here); Go `int` is `Int`, with Go's
truncated integer division modelled by `Int.tdiv`; Go functions that can call
`log.Fatalf` or `os.Exit` are modelled with explicit outcome types.
-/

namespace GitLs

/-! ## Color constants (main.go lines 39-45) -/

def BLUE : String := "\x1b[34m"

def GREEN : String := "\x1b[32m"

def RED : String := "\x1b[31m"

def RESET : String := "\x1b[0m"

def YELLOW : String := "\x1b[33m"

/-! ## Width model (main.go `width`, lines 177-203) -/

/-- The `ansiMarker` from main.go line 177: the escape-introducer character. -/
def ansiMarker : Char := '\x1b'

/-- The escape-terminator test from main.go line 192:
`(c >= 0x40 && c <= 0x5a) || (c >= 0x61 && c <= 0x7a)`, i.e. `@`, `A`-`Z`
or `a`-`z`. -/
def isEscTerminator (c : Char) : Bool :=
  (0x40 ≤ c.toNat ∧ c.toNat ≤ 0x5a) ∨ (0x61 ≤ c.toNat ∧ c.toNat ≤ 0x7a)

/-- The scanning loop of `width` (main.go lines 185-200). The `Bool`
argument is the `ansi` state variable; the result is the accumulator `n`.
The source checks `c == ansiMarker` first, then the `ansi` flag, and counts
every other rune as width 1. -/
def widthAux : Bool → List Char → Nat
  | _, [] => 0
  | ansi, c :: rest =>
    if c = ansiMarker then widthAux true rest
    else if ansi then
      if isEscTerminator c then widthAux false rest else widthAux true rest
    else widthAux false rest + 1

/-- The `width` from main.go lines 183-203: printable width of a string,
ignoring ANSI escape sequences, all runes assumed single-width. -/
def width (s : String) : Nat := widthAux false s.data

/-! ## Hyperlink encoder (main.go `link`, lines 152-155) -/

/-- The `link` from main.go line 154:
`fmt.Sprintf("\x1b]8;;%s\x1b\\%s\x1b]8;;\x1b\\", url, name)`. -/
def link (url : String) (name : String) : String :=
  "\x1b]8;;" ++ url ++ "\x1b\\" ++ name ++ "\x1b]8;;\x1b\\"

/-- The final value of the `ansi` state variable after `width`'s loop
(main.go lines 185-200) has scanned the given characters, starting from the
given state. Companion to `widthAux` for compositional reasoning. -/
def ansiAfter : Bool → List Char → Bool
  | b, [] => b
  | ansi, c :: rest =>
    if c = ansiMarker then ansiAfter true rest
    else if ansi then
      if isEscTerminator c then ansiAfter false rest else ansiAfter true rest
    else ansiAfter false rest

/-- Number of characters strictly after the first escape-terminator
(`@`, `A`-`Z`, `a`-`z`) of a character list; `0` if there is none. Used to
characterise what `width` actually returns on an OSC8 hyperlink. -/
def afterTerm : List Char → Nat
  | [] => 0
  | c :: rest => if isEscTerminator c then rest.length else afterTerm rest

/-- Modelled from the spec (§4.1): the spec's description of
`printableWidth` says escape mode "ends at the first letter character
(A–Z or a–z)". This scanner extracts the characters the spec says are
counted, with that letters-only terminator rule. -/
def lettersVisible : Bool → List Char → List Char
  | _, [] => []
  | esc, c :: rest =>
    if c = ansiMarker then lettersVisible true rest
    else if esc then
      if ('A' ≤ c ∧ c ≤ 'Z') ∨ ('a' ≤ c ∧ c ≤ 'z') then lettersVisible false rest
      else lettersVisible true rest
    else c :: lettersVisible false rest

/-- The width the spec's words (§4.1) describe: every character outside
escape mode counts 1, characters in escape mode count 0, escape mode ends
at the first letter. -/
def specPrintableWidth (s : String) : Nat := (lettersVisible false s.data).length

/-- Like `lettersVisible` but with the terminator set the code actually
uses (`isEscTerminator`: `@`, `A`-`Z`, `a`-`z`): the characters that
contribute width 1 under the amended reading of the spec. -/
def visibleChars : Bool → List Char → List Char
  | _, [] => []
  | esc, c :: rest =>
    if c = ansiMarker then visibleChars true rest
    else if esc then
      if isEscTerminator c then visibleChars false rest
      else visibleChars true rest
    else c :: visibleChars false rest

/-! ## Diff graph renderer (main.go `scale_linear` / `makeDiffGraph`,
lines 218-255) -/

/-- The `Diff` from main.go lines 20-23; Go `int` fields become `Int`. -/
structure Diff where
  plus : Int
  minus : Int

/-- The `scale_linear` from main.go lines 220-231. Go's `/` on `int` truncates
toward zero, which is exactly `Int.tdiv`. -/
def scale_linear (n : Int) (w : Int) (max_change : Int) : Int :=
  if n = 0 then 0 else 1 + Int.tdiv (n * (w - 1)) max_change

/-- Modelled from the spec (§4.2, claim C5): `scaled(n) = 0 if n == 0,
else 1 + floor(n * (width - 1) / (added + removed))`, with a true floor
division (`Int.fdiv`). -/
def specScaled (n : Int) (w : Int) (total : Int) : Int :=
  if n = 0 then 0 else 1 + Int.fdiv (n * (w - 1)) total

/-- The `strings.Repeat(s, n)`. Go panics when `n < 0`; every use proved about
below has `n ≥ 0`, where `String.join (List.replicate n.toNat s)` is
exact. -/
def goRepeat (s : String) (n : Int) : String :=
  String.join (List.replicate n.toNat s)

/-- The `makeDiffGraph` from main.go lines 235-255, taking the `diffSum` field
of the `File` it reads and the diff-graph width. Note line 246 of the
source really does write `strings.Repeat("-", plus)` in the unscaled
branch — the embedding reproduces it verbatim. -/
def makeDiffGraph (diffSum : Option Diff) (w : Int) : String :=
  match diffSum with
  | none => ""
  | some d =>
    if d.plus + d.minus ≤ w then
      GREEN ++ goRepeat "+" d.plus ++ RED ++ goRepeat "-" d.plus ++ RESET
    else
      GREEN ++ goRepeat "+" (scale_linear d.plus w (d.plus + d.minus)) ++ RED
        ++ goRepeat "-" (scale_linear d.minus w (d.plus + d.minus)) ++ RESET

/-! ## Integer parsing (`strconv.Atoi` as used by `diffInt`,
main.go lines 470-476) -/

/-- ASCII digit test. -/
def isDigitChar (c : Char) : Bool := '0' ≤ c ∧ c ≤ '9'

/-- Value of a nonempty all-digit character list, `none` otherwise. -/
def digitsVal (l : List Char) : Option Nat :=
  if l = [] then none
  else if l.all isDigitChar then
    some (l.foldl (fun acc c => 10 * acc + (c.toNat - 48)) 0)
  else none

/-- The `strconv.Atoi`: an optional sign followed by at least one digit;
anything else is an error (`none`). Go additionally errors on 64-bit
overflow, which cannot occur for the short numeric fields this program
parses and is not modelled. -/
def goAtoi (s : String) : Option Int :=
  match s.data with
  | '-' :: rest => (digitsVal rest).map (fun n => -(n : Int))
  | '+' :: rest => (digitsVal rest).map (fun n => (n : Int))
  | l => (digitsVal l).map (fun n => (n : Int))

/-- The `diffInt` from main.go lines 470-476: `strconv.Atoi` with any parse
error coerced to `0`. Total by construction — it cannot raise. -/
def diffInt (s : String) : Int :=
  match goAtoi s with
  | some i => i
  | none => 0

/-- Modelled from the spec (§4.4, claim C8): "a field that fails to parse
as a non-negative integer" — the field parses as a non-negative integer
exactly when `goAtoi` succeeds with a value `≥ 0`. -/
def parsesAsNonNegInt (s : String) : Bool :=
  match goAtoi s with
  | some n => decide (0 ≤ n)
  | none => false

/-! ## First path component (main.go `first`, lines 459-465) -/

/-- The `first` from main.go lines 459-465: the prefix of a path up to the
first path separator. On the unix targets of this program
`os.IsPathSeparator(c)` holds exactly for `'/'`. -/
def first (path : String) : String :=
  String.mk (path.data.takeWhile (fun c => c ≠ '/'))

/-! ## Diff aggregator (main.go `parseDiffStat`, lines 487-516) -/

/-- Helper for `splitChar`: the piece of the list before the next
separator, and the remaining pieces. -/
def splitCharAux (sep : Char) : List Char → List Char × List (List Char)
  | [] => ([], [])
  | c :: rest =>
    let r := splitCharAux sep rest
    if c = sep then ([], r.1 :: r.2) else (c :: r.1, r.2)

/-- The `strings.Split(s, sep)` for a single-character separator: every
maximal run between separators, empties preserved, `[""]` on the empty
string — exactly Go's behavior. -/
def splitChar (sep : Char) (l : List Char) : List (List Char) :=
  (splitCharAux sep l).1 :: (splitCharAux sep l).2

/-- ASCII whitespace as recognised by `unicode.IsSpace`. (The Unicode
space characters Go additionally strips cannot occur in
`git diff --numstat` output.) -/
def isSpaceChar (c : Char) : Bool :=
  c = ' ' ∨ c = '\t' ∨ c = '\n' ∨ c = '\r' ∨ c = '\x0b' ∨ c = '\x0c'

/-- The `strings.TrimSpace`: strip leading and trailing whitespace. -/
def goTrimSpace (s : String) : String :=
  String.mk (((s.data.dropWhile isSpaceChar).reverse.dropWhile isSpaceChar).reverse)

/-- One iteration of the parse loop in `parseDiffStat` (main.go lines
490-500): split on tabs, skip lines with fewer than 3 fields, parse the
two count fields with `diffInt` and take the first path component of the
whitespace-trimmed third field. -/
def parseDiffLine (line : String) : Option (String × Int × Int) :=
  match (splitChar '\t' line.data).map String.mk with
  | p0 :: p1 :: p2 :: _ => some (first (goTrimSpace p2), diffInt p0, diffInt p1)
  | _ => none

/-- The `diffStats` map built by the first loop of `parseDiffStat`
(main.go lines 488-500), modelled as the function sending each key to its
appended list of `(plus, minus)` pairs. -/
def diffStatsMap (lines : List String) : String → List (Int × Int) :=
  lines.foldl
    (fun m line =>
      match parseDiffLine line with
      | some (path, plus, minus) =>
        fun k => if k = path then m k ++ [(plus, minus)] else m k
      | none => m)
    (fun _ => [])

/-- The second loop of `parseDiffStat` (main.go lines 502-515) for one
entry name: if the name is a key of the map, sum the recorded diffs into
the entry's `diffSum`; otherwise the field stays `nil` (`none`). -/
def diffSumFor (lines : List String) (name : String) : Option (Int × Int) :=
  match diffStatsMap lines name with
  | [] => none
  | stats => some (stats.foldl (fun acc d => (acc.1 + d.1, acc.2 + d.2)) (0, 0))

/-! ## Status aggregator (main.go `fileStatus`, lines 394-423) -/

/-- The `slices.Compact`: collapse runs of consecutive equal elements to a
single element. -/
def compact : List String → List String
  | [] => []
  | [a] => [a]
  | a :: b :: rest =>
    if a = b then compact (b :: rest) else a :: compact (b :: rest)

/-- The `slices.Sort` on strings. Go sorts ascending by lexicographic byte
order; since a sorted permutation is unique, insertion sort over the
`LinearOrder` on `String` returns exactly the same list. -/
def sortStrings (l : List String) : List String :=
  List.insertionSort (· ≤ ·) l

/-- The per-line work of `fileStatus`'s first loop (main.go lines
398-412): lines shorter than 3 characters are skipped; the status code is
`line[:2]` with `"!!"` normalized to `"I"`; the key is the first path
component of `filepath.Rel(curdir, line[3:])`. `filepath.Rel` is a pure
Go-library path computation the program treats as a black box, so it is
passed in here as an arbitrary function `rel` — every theorem below holds
for all choices of `rel`. (`must(Rel(...))` aborts the whole run on error,
so error outcomes never reach the aggregation being specified.) -/
def statusLineEntry (rel : String → String → String) (curdir line : String) :
    Option (String × String) :=
  if 3 ≤ line.length then
    let st := String.mk (line.data.take 2)
    some (first (rel curdir (String.mk (line.data.drop 3))),
      if st = "!!" then "I" else st)
  else none

/-- The `gitStatusMap` built by `fileStatus` (main.go lines 395-412),
as the function from key to appended code list. -/
def gitStatusMap (rel : String → String → String) (curdir : String)
    (lines : List String) : String → List String :=
  lines.foldl
    (fun m line =>
      match statusLineEntry rel curdir line with
      | some (key, st) => fun k => if k = key then m k ++ [st] else m k
      | none => m)
    (fun _ => [])

/-- The display string `fileStatus`'s second loop (main.go lines 414-422)
assigns to the entry called `name`: sorted, deduplicated, comma-joined
codes when the name is a key; `""` otherwise; and the `".git"` entry is
force-assigned `"*"` last, overriding either. -/
def fileStatusDisplay (rel : String → String → String) (curdir : String)
    (lines : List String) (name : String) : String :=
  let base :=
    match gitStatusMap rel curdir lines name with
    | [] => ""
    | codes => String.intercalate "," (compact (sortStrings codes))
  if name = ".git" then "*" else base

/-! ## CLI argument loop (main.go `main`, lines 82-108) -/

/-- The `strings.HasPrefix`. -/
def goStartsWith (s pre : String) : Bool := pre.data.isPrefixOf s.data

/-- The `strings.Contains(s, "=")`. -/
def goContainsEq (s : String) : Bool := s.data.contains '='

/-- The `strings.SplitN(s, "=", 2)[1]`: everything after the first `'='`. -/
def afterFirstEq (s : String) : String :=
  String.mk ((s.data.dropWhile (fun c => c ≠ '=')).drop 1)

/-- Outcome of the argument-processing loop of `main` (lines 85-108):
`exited` for the `--version`/`--help` paths (`os.Exit(0)`), `fatal` for
`log.Fatalf` (missing or malformed `--diffWidth` value via `must`),
`done` when `len(argv) > 0` becomes false, and `fuelOut` when the given
number of iterations did not suffice to leave the loop. -/
inductive ArgOutcome where
  | exited : ArgOutcome
  | fatal : ArgOutcome
  | done : List String → Int → ArgOutcome
  | fuelOut : ArgOutcome
deriving DecidableEq

/-- The `for len(argv) > 0` loop of `main` (main.go lines 85-108), one
constructor-exact branch per source `if`. Note the loop body has no
else-branch: an argument that matches none of `--version`, `--help`,
`-h`, `--diffWidth…` leaves `argv` untouched and the loop repeats on the
same state. -/
def argLoop : Nat → List String → Int → ArgOutcome
  | _, [], dw => .done [] dw
  | 0, _ :: _, _ => .fuelOut
  | fuel + 1, a :: rest, dw =>
    if a = "--version" then .exited
    else if a = "--help" ∨ a = "-h" then .exited
    else if goStartsWith a "--diffWidth" then
      match rest with
      | [] =>
        if goContainsEq a then
          match goAtoi (afterFirstEq a) with
          | some n => argLoop fuel [] n
          | none => .fatal
        else .fatal
      | b :: rest2 =>
        match goAtoi b with
        | some n => argLoop fuel rest2 n
        | none => .fatal
    else argLoop fuel (a :: rest) dw

/-! ## Issue linkifier (main.go `linkify`, lines 157-175) -/

/-- The scanning loop of `linkify` (main.go lines 161-172). `acc` holds
(reversed) the characters scanned since the previous match — the
`commitMsg[:issueIx[0]]` slice. A match of the regexp `#(\d+)` is a `'#'`
followed by a maximal nonempty digit run; the loop emits a commit link
for the text before it and a colored pull-request link for the match,
then continues after the match. When no further match exists the
remaining text is emitted as one commit link (main.go line 172). -/
def linkifyAux (github hash : String) : List Char → List Char → List String
  | acc, [] => [link (github ++ "/commit/" ++ hash) (String.mk acc.reverse)]
  | acc, c :: rest =>
    if c = '#' ∧ rest.takeWhile isDigitChar ≠ [] then
      link (github ++ "/commit/" ++ hash) (String.mk acc.reverse)
        :: link (github ++ "/pull/" ++ String.mk (rest.takeWhile isDigitChar))
          (BLUE ++ String.mk (c :: rest.takeWhile isDigitChar) ++ RESET)
        :: linkifyAux github hash [] (rest.drop (rest.takeWhile isDigitChar).length)
    else linkifyAux github hash (c :: acc) rest
termination_by _ msg => msg.length
decreasing_by
  all_goals simp [List.length_drop]
  all_goals omega

/-- The `linkify` from main.go lines 157-175: `strings.Join(out, "")` over the
fragments produced by the scan. -/
def linkify (commitMsg github hash : String) : String :=
  String.join (linkifyAux github hash [] commitMsg.data)

/-! ## Table renderer (main.go `show`, lines 257-344) -/

/-- The per-entry fields of `File` (main.go lines 25-37) that `show`
reads. `entry` is collapsed to the one method used, `Name()`; `diffSum`
is omitted because `show` reads only the derived `diffStat` string. -/
structure GoFile where
  name : String
  status : String
  diffStat : String
  author : String
  authorEmail : String
  hash : String
  lastModified : String
  message : String
  isDir : Bool
  isExe : Bool

/-- A run of `n` spaces, as printed by the padding loops of `show`. -/
def spacesN (n : Nat) : String := String.mk (List.replicate n ' ')

/-- The `maxStatus` measurement (main.go lines 258-271, `len(file.status)`). -/
def maxStatusLen (files : List GoFile) : Nat :=
  files.foldl (fun m f => max m f.status.length) 0

/-- The `maxDiffStat` measurement (printable width of `diffStat`). -/
def maxDiffStatW (files : List GoFile) : Nat :=
  files.foldl (fun m f => max m (width f.diffStat)) 0

/-- The `maxNameLen` measurement (`len(file.entry.Name())`). -/
def maxNameLen (files : List GoFile) : Nat :=
  files.foldl (fun m f => max m f.name.length) 0

/-- The `lineWidth` accumulator of `show` just before the first cutoff
check (main.go line 312): `maxStatus + 1` plus `5` when the status gutter
is printed, plus `maxNameLen`, plus `len(lastModified) + 1`. -/
def lineWidthPreAuthor (mS mN : Nat) (f : GoFile) : Int :=
  (if 0 < mS then (mS : Int) + 1 + 5 else 0) + (mN : Int)
    + ((f.lastModified.length : Int) + 1)

/-- The `authorWidth := min(len(file.author), maxWidth-1-lineWidth)`
(main.go line 316). -/
def authorWidth (maxWidth lw : Int) (f : GoFile) : Int :=
  min (f.author.length : Int) (maxWidth - 1 - lw)

/-- The `messageWidth := min(len(file.message), maxWidth-1-lineWidth)`
(main.go line 337). -/
def messageWidth (maxWidth lw : Int) (f : GoFile) : Int :=
  min (f.message.length : Int) (maxWidth - 1 - lw)

/-- The `filepath.Join(dir, name)`. `Join` also lexically cleans its result,
but for the inputs this program passes (a cleaned absolute directory and
a bare entry name) cleaning is the identity and `Join` is exactly this
concatenation. -/
def goPathJoin (dir name : String) : String := dir ++ "/" ++ name

/-- One iteration of the emission loop of `show` (main.go lines 273-343)
for the entry `f`, returning the text written for this row. Mirrors the
source statement by statement: the status gutter (only when `0 < mS`),
colors, the hyperlinked padded name, the date, then the first cutoff check
`lineWidth >= maxWidth` (which emits the bare newline of line 313 and
stops), the clipped author column, the second cutoff check, and the
clipped message column. -/
def showFile (maxWidth : Int) (mS mD mN : Nat)
    (githubUrl dir hostname : String) (f : GoFile) : String :=
  let statusPart :=
    if 0 < mS then
      spacesN (mS - f.status.length) ++ f.status ++ " " ++ f.diffStat
        ++ spacesN (mD - width f.diffStat + 1)
    else ""
  let colorPre := (if f.isDir then BLUE else "") ++ (if f.isExe then GREEN else "")
  let namePart :=
    link ("file://" ++ hostname ++ goPathJoin dir f.name) f.name
      ++ spacesN (mN - f.name.length)
      ++ (if f.isDir || f.isExe then RESET else "")
  let head := statusPart ++ colorPre ++ namePart ++ " " ++ f.lastModified
  let lw0 := lineWidthPreAuthor mS mN f
  if maxWidth ≤ lw0 then head ++ "\n"
  else
    let aw := authorWidth maxWidth lw0 f
    let authorStr := String.mk (f.author.data.take aw.toNat)
    let authorPart :=
      if 0 < githubUrl.length then
        " " ++ YELLOW
          ++ link (githubUrl ++ "/commits?author=" ++ f.authorEmail) authorStr
          ++ RESET
      else " " ++ YELLOW ++ authorStr ++ RESET
    let lw1 := lw0 + aw + 1
    if maxWidth ≤ lw1 then head ++ authorPart ++ "\n"
    else
      let mw := messageWidth maxWidth lw1 f
      let msgStr := String.mk (f.message.data.take mw.toNat)
      let msgPart :=
        if 0 < githubUrl.length then " " ++ linkify msgStr githubUrl f.hash ++ "\n"
        else " " ++ msgStr ++ "\n"
      head ++ authorPart ++ msgPart

/-- The `show` from main.go lines 257-344 (renamed: `show` is a Lean keyword):
the measurement pass followed by the emission pass over all entries; the
bytes written to `out`. -/
def showAll (maxWidth : Int) (files : List GoFile)
    (githubUrl dir hostname : String) : String :=
  String.join (files.map
    (showFile maxWidth (maxStatusLen files) (maxDiffStatW files)
      (maxNameLen files) githubUrl dir hostname))

/-- The `(plus, minus)` pairs of exactly those diff lines whose parsed
first path component equals `name`, in input order — the reference value
the aggregate of `parseDiffStat` is compared against. -/
def matchedDiffs (lines : List String) (name : String) : List (Int × Int) :=
  ((lines.filterMap parseDiffLine).filter (fun t => t.1 = name)).map (fun t => t.2)

/-! ## Concrete inputs used by witnesses -/

/-- A concrete entry used to witness the renderer clip-bound theorem. -/
def wfileC10 : GoFile :=
  ⟨"a.go", "", "", "Ann", "", "", "2024-01-01", "hi", false, false⟩

/-- Its `lineWidth` before the author column at `maxStatus = 0`,
`maxNameLen = 4`. -/
def wlwC10 : Int := lineWidthPreAuthor 0 4 wfileC10

/-- Its author clip width at terminal width 100. -/
def wawC10 : Int := authorWidth 100 wlwC10 wfileC10

/-! ## Theorems -/

/-- C1. The spec says the unscaled branch emits `added` "+" glyphs followed
by `removed` "-" glyphs. The code (main.go line 246) writes
`strings.Repeat("-", plus)`: at `diffSum = {plus: 1, minus: 2}` and width 4
(so `1 + 2 <= 4`, the unscaled branch) it emits one "+" and **one** "-"
where the spec demands two "-". -/
theorem C1_unscaled_branch_emits_plus_minuses :
    makeDiffGraph (some ⟨1, 2⟩) 4 = GREEN ++ "+" ++ RED ++ "-" ++ RESET ∧
    (makeDiffGraph (some ⟨1, 2⟩) 4).data.count '-' = 1 ∧
    (makeDiffGraph (some ⟨1, 2⟩) 4).data.count '+' = 1 := by
  decide

/-- C2. With a single directory argument (`git ls somedir`) the
argument-processing loop of `main` never terminates: the argument matches
no flag, the body leaves `argv` unchanged, and the loop condition
`len(argv) > 0` stays true — after any finite number of iterations the
loop is still running. The program never reaches the directory listing. -/
theorem C2_arg_loop_diverges_on_directory_argument :
    ∀ (fuel : Nat) (dw : Int), argLoop fuel ["somedir"] dw = ArgOutcome.fuelOut := by
  intro fuel
  induction fuel with
  | zero => intro dw; rfl
  | succ n ih =>
    intro dw
    have hstep : argLoop (n + 1) ["somedir"] dw = argLoop n ["somedir"] dw := by
      simp [argLoop, goStartsWith]
    rw [hstep]
    exact ih dw

/-- C3. When the detected terminal column count is 0 (unavailable), the
cutoff check `lineWidth >= maxWidth` at main.go line 312 always trips, so
the renderer ends every line right after the date: for an entry whose
author and message consist of `'Z'`s, no `'Z'` reaches the output, and the
whole row is exactly the hyperlinked name plus the date. The spec instead
requires width 0 to mean "render without any width-based cutoff". -/
theorem C3_zero_terminal_width_drops_author_and_message :
    showAll 0 [⟨"a.go", "", "", "ZZZ", "", "", "2024-01-01", "ZZ msg", false, false⟩]
        "" "/d" "h"
      = "\x1b]8;;file://h/d/a.go\x1b\\a.go\x1b]8;;\x1b\\ 2024-01-01\n" ∧
    'Z' ∉ (showAll 0 [⟨"a.go", "", "", "ZZZ", "", "", "2024-01-01", "ZZ msg", false, false⟩]
        "" "/d" "h").data := by
  decide

/-- C4 counterexample. The claim `width (link url text) = width text`
fails already at `url = "a"`, `text = "b"`: the whole hyperlink is
swallowed as one escape (the url's `'a'` terminates the opening escape,
the `ESC \`` re-enters escape mode, and the text's `'b'` terminates it
without being counted), giving width 0 instead of 1. -/
theorem C4_hyperlink_width_counterexample :
    width (link "a" "b") = 0 ∧ width "b" = 1 ∧
    width (link "a" "b") ≠ width "b" := by
  decide

/-- C5 counterexample. The claim quantifies over every `width` with
`added + removed > width` and asserts `scaled(n) = 1 + floor(n*(width-1) /
(added+removed))` for nonzero `n`. At `added = removed = 1`, `width = 0`
(so `2 > 0`), Go's truncated division gives `scale_linear 1 0 2 =
1 + trunc(-1/2) = 1`, while the spec's floor formula gives
`1 + floor(-1/2) = 0` — and a scaled count of 0 would also violate the
claim's own "at least one glyph" conclusion. -/
theorem C5_floor_formula_counterexample :
    (0 : Int) < 1 + 1 ∧
    scale_linear 1 0 (1 + 1) = 1 ∧
    specScaled 1 0 (1 + 1) = 0 ∧
    scale_linear 1 0 (1 + 1) ≠ specScaled 1 0 (1 + 1) := by
  decide

/-- C8 counterexample. The field `"-5"` fails to parse as a *non-negative*
integer, yet `strconv.Atoi` accepts it and `diffInt` contributes `-5`, not
`0`, to the aggregate. -/
theorem C8_negative_field_counterexample :
    parsesAsNonNegInt "-5" = false ∧ diffInt "-5" = -5 ∧ diffInt "-5" ≠ 0 := by
  decide

/-- C9 counterexample. The spec says escape mode ends at the first
*letter* (A–Z or a–z); the code (main.go line 192) also ends it at `'@'`
(0x40). On the string `ESC '@' 'x'` the code leaves escape mode at `'@'`
and counts `'x'`, returning 1, while the spec's letters-only rule swallows
`'x'` as the terminator and returns 0. -/
theorem C9_at_sign_terminator_counterexample :
    width "\x1b@x" = 1 ∧ specPrintableWidth "\x1b@x" = 0 ∧
    width "\x1b@x" ≠ specPrintableWidth "\x1b@x" := by
  decide

/-- C10. Whenever the first cutoff check of `show` passes
(`lineWidth < maxWidth`), the remaining budget `maxWidth - 1 - lineWidth`
is non-negative, so the clip `authorWidth = min(len(author), budget)` lies
in `[0, len(author)]` and the slice `author[:authorWidth]` is in bounds;
if the second check also passes, the same holds for
`message[:messageWidth]`. Rendering never slices out of range. -/
theorem C10_clip_widths_in_bounds (mS mN : Nat) (maxWidth : Int) (f : GoFile)
    (h : lineWidthPreAuthor mS mN f < maxWidth) :
    0 ≤ maxWidth - 1 - lineWidthPreAuthor mS mN f ∧
    0 ≤ authorWidth maxWidth (lineWidthPreAuthor mS mN f) f ∧
    authorWidth maxWidth (lineWidthPreAuthor mS mN f) f ≤ (f.author.length : Int) ∧
    (lineWidthPreAuthor mS mN f + authorWidth maxWidth (lineWidthPreAuthor mS mN f) f + 1
        < maxWidth →
      0 ≤ messageWidth maxWidth
          (lineWidthPreAuthor mS mN f + authorWidth maxWidth (lineWidthPreAuthor mS mN f) f + 1) f ∧
      messageWidth maxWidth
          (lineWidthPreAuthor mS mN f + authorWidth maxWidth (lineWidthPreAuthor mS mN f) f + 1) f
        ≤ (f.message.length : Int)) := by
  have h1 : 0 ≤ maxWidth - 1 - lineWidthPreAuthor mS mN f := by omega
  refine ⟨h1, le_min (Int.ofNat_nonneg _) h1, min_le_left _ _, fun h2 => ⟨?_, min_le_left _ _⟩⟩
  exact le_min (Int.ofNat_nonneg _) (by omega)

/-- Witness for C10 at a concrete entry and terminal width 100. -/
theorem C10_clip_widths_in_bounds_witness :
    wlwC10 < 100 ∧
    (0 ≤ 100 - 1 - wlwC10 ∧
      0 ≤ wawC10 ∧
      wawC10 ≤ (wfileC10.author.length : Int) ∧
      (wlwC10 + wawC10 + 1 < 100 →
        0 ≤ messageWidth 100 (wlwC10 + wawC10 + 1) wfileC10 ∧
        messageWidth 100 (wlwC10 + wawC10 + 1) wfileC10
          ≤ (wfileC10.message.length : Int))) :=
  ⟨by decide, C10_clip_widths_in_bounds 0 4 100 wfileC10 (by decide)⟩

/-- Truncated and floor division agree on non-negative operands, and the
truncated quotient of non-negative operands is non-negative. Helper for
the amended C5. -/
theorem scale_linear_eq_specScaled_of_nonneg (n w total : Int)
    (hn : 0 ≤ n) (hw : 1 ≤ w) (ht : 0 ≤ total) :
    scale_linear n w total = specScaled n w total ∧
    (0 < n → 1 ≤ scale_linear n w total) := by
  unfold scale_linear specScaled
  by_cases h : n = 0
  · simp [h]
  · have hnum : 0 ≤ n * (w - 1) := mul_nonneg hn (by omega)
    have heq : Int.fdiv (n * (w - 1)) total = Int.tdiv (n * (w - 1)) total :=
      Int.fdiv_eq_tdiv hnum ht
    have hpos : 0 ≤ Int.tdiv (n * (w - 1)) total := Int.tdiv_nonneg hnum ht
    simp only [h, if_false]
    exact ⟨by rw [heq], fun _ => by omega⟩

/-- C5 (amended: the diff-graph widths actually used are positive —
`--diffWidth` defaults to 4). For every `added, removed ≥ 0` and every
`width ≥ 1` with `added + removed > width`, the code's
`scale_linear(n, width, added+removed)` equals the spec formula
`0 if n == 0 else 1 + floor(n*(width-1)/(added+removed))`, and every
nonzero count yields at least one glyph. -/
theorem C5_scaling_formula_for_positive_width (added removed w : Int)
    (ha : 0 ≤ added) (hr : 0 ≤ removed) (hw : 1 ≤ w)
    (_hgt : w < added + removed) :
    scale_linear added w (added + removed) = specScaled added w (added + removed) ∧
    scale_linear removed w (added + removed) = specScaled removed w (added + removed) ∧
    (0 < added → 1 ≤ scale_linear added w (added + removed)) ∧
    (0 < removed → 1 ≤ scale_linear removed w (added + removed)) := by
  have ht : 0 ≤ added + removed := by omega
  have h1 := scale_linear_eq_specScaled_of_nonneg added w (added + removed) ha hw ht
  have h2 := scale_linear_eq_specScaled_of_nonneg removed w (added + removed) hr hw ht
  exact ⟨h1.1, h2.1, h1.2, h2.2⟩

/-- Witness for C5 at `added = 3`, `removed = 2`, `width = 1`
(`3 + 2 > 1`). -/
theorem C5_scaling_formula_witness :
    ((0 : Int) ≤ 3 ∧ (0 : Int) ≤ 2 ∧ (1 : Int) ≤ 1 ∧ (1 : Int) < 3 + 2) ∧
    (scale_linear 3 1 (3 + 2) = specScaled 3 1 (3 + 2) ∧
      scale_linear 2 1 (3 + 2) = specScaled 2 1 (3 + 2) ∧
      ((0 : Int) < 3 → 1 ≤ scale_linear 3 1 (3 + 2)) ∧
      ((0 : Int) < 2 → 1 ≤ scale_linear 2 1 (3 + 2))) :=
  ⟨by decide,
    C5_scaling_formula_for_positive_width 3 2 1 (by decide) (by decide)
      (by decide) (by decide)⟩

/-- C8 (amended: "non-negative integer" → "integer"). Every count field
that `strconv.Atoi` rejects — in particular the binary-file marker `"-"` —
contributes 0 to the aggregate, and `diffInt` is total, so no error is
ever raised. (Fields that parse as *negative* integers are accepted
verbatim, which is why the claim's "non-negative" is too strong.) -/
theorem C8_unparseable_field_contributes_zero (s : String)
    (h : goAtoi s = none) : diffInt s = 0 := by
  simp [diffInt, h]

/-- Witness for C8 at the binary-file marker `"-"`. -/
theorem C8_unparseable_field_witness :
    goAtoi "-" = none ∧ diffInt "-" = 0 :=
  ⟨by decide, C8_unparseable_field_contributes_zero "-" (by decide)⟩

/-- The scan of `width` and the character extraction of `visibleChars`
agree from every starting state. -/
theorem widthAux_eq_visibleChars_length :
    ∀ (l : List Char) (b : Bool), widthAux b l = (visibleChars b l).length := by
  intro l
  induction l with
  | nil => intro b; rfl
  | cons c rest ih =>
    intro b
    by_cases h1 : c = ansiMarker
    · simp [widthAux, visibleChars, h1, ih]
    · cases b with
      | true =>
        by_cases h2 : isEscTerminator c
        · simp [widthAux, visibleChars, h1, h2, ih]
        · simp [widthAux, visibleChars, h1, h2, ih]
      | false => simp [widthAux, visibleChars, h1, ih]

/-- C9 (amended: the escape terminator set is `@`, `A`–`Z`, `a`–`z`, i.e.
0x40–0x5A and 0x61–0x7A, not letters alone). `width` equals the number of
characters outside escape mode: escape mode starts at the introducer,
ends exactly at the first terminator after it, characters inside (and the
introducer and terminator themselves) contribute 0, and every other
character contributes exactly 1. -/
theorem C9_width_counts_exactly_the_visible_characters (s : String) :
    width s = (visibleChars false s.data).length :=
  widthAux_eq_visibleChars_length s.data false

/-- The `width`'s scan splits over concatenation: the second part is scanned
from the state the first part ends in. -/
theorem widthAux_append :
    ∀ (xs : List Char) (b : Bool) (ys : List Char),
      widthAux b (xs ++ ys) = widthAux b xs + widthAux (ansiAfter b xs) ys := by
  intro xs
  induction xs with
  | nil => intro b ys; simp [widthAux, ansiAfter]
  | cons c rest ih =>
    intro b ys
    by_cases h1 : c = ansiMarker
    · simp [widthAux, ansiAfter, h1, ih]
    · cases b with
      | true =>
        by_cases h2 : isEscTerminator c
        · simp [widthAux, ansiAfter, h1, h2, ih]
        · simp [widthAux, ansiAfter, h1, h2, ih]
      | false =>
        simp [widthAux, ansiAfter, h1, ih]
        omega

/-- Outside escape mode, a string with no escape introducer is counted
one per character. -/
theorem widthAux_false_of_no_marker :
    ∀ l : List Char, ansiMarker ∉ l → widthAux false l = l.length := by
  intro l
  induction l with
  | nil => intro _; rfl
  | cons c rest ih =>
    intro h
    have hc : ¬c = ansiMarker := fun he => h (he ▸ List.mem_cons_self c rest)
    have hr : ansiMarker ∉ rest := fun hm => h (List.mem_cons_of_mem c hm)
    simp [widthAux, hc, ih hr]

/-- Inside escape mode, a string with no escape introducer contributes
exactly its characters after the first terminator. -/
theorem widthAux_true_of_no_marker :
    ∀ l : List Char, ansiMarker ∉ l → widthAux true l = afterTerm l := by
  intro l
  induction l with
  | nil => intro _; rfl
  | cons c rest ih =>
    intro h
    have hc : ¬c = ansiMarker := fun he => h (he ▸ List.mem_cons_self c rest)
    have hr : ansiMarker ∉ rest := fun hm => h (List.mem_cons_of_mem c hm)
    by_cases h2 : isEscTerminator c
    · simp [widthAux, afterTerm, hc, h2, widthAux_false_of_no_marker rest hr]
    · simp [widthAux, afterTerm, hc, h2, ih hr]

/-- C4 (amended). For any url and display text free of the escape
introducer, the printable width of the OSC8-wrapped string is **not**
the width of the display text: `width` leaves escape mode at the first
`@`/`A`–`Z`/`a`–`z` of the *url* (counting the url's remaining characters)
and re-enters it at the `ESC \` separator, so the text's own characters
up to and including its first terminator are swallowed. Exactly:
`width (link url text) = afterTerm url.data + afterTerm text.data`. -/
theorem C4_hyperlink_width_characterisation (url text : String)
    (hu : ansiMarker ∉ url.data) (ht : ansiMarker ∉ text.data) :
    width (link url text) = afterTerm url.data + afterTerm text.data := by
  have hdata : (link url text).data =
      ['\x1b', ']', '8', ';', ';'] ++ url.data ++ ['\x1b', '\\'] ++ text.data
        ++ ['\x1b', ']', '8', ';', ';', '\x1b', '\\'] := by
    simp [link]
  have hPre : ∀ ys : List Char,
      widthAux false ('\x1b' :: ']' :: '8' :: ';' :: ';' :: ys) = widthAux true ys :=
    fun _ => rfl
  have hMid : ∀ (b : Bool) (ys : List Char),
      widthAux b ('\x1b' :: '\\' :: ys) = widthAux true ys :=
    fun _ _ => rfl
  have hSuf : ∀ b : Bool,
      widthAux b ['\x1b', ']', '8', ';', ';', '\x1b', '\\'] = 0 :=
    fun _ => rfl
  rw [width, hdata]
  simp only [List.append_assoc, List.cons_append, List.nil_append]
  rw [hPre, widthAux_append url.data true, widthAux_true_of_no_marker url.data hu,
    hMid, widthAux_append text.data true, widthAux_true_of_no_marker text.data ht,
    hSuf]
  omega

/-- Witness for C4 at `url = "a"`, `text = "b"`: the wrapped width is
`0 + 0 = 0` (whereas `width "b" = 1`). -/
theorem C4_hyperlink_width_characterisation_witness :
    (ansiMarker ∉ ("a" : String).data ∧ ansiMarker ∉ ("b" : String).data) ∧
    width (link "a" "b") = afterTerm ("a" : String).data + afterTerm ("b" : String).data :=
  ⟨by decide, C4_hyperlink_width_characterisation "a" "b" (by decide) (by decide)⟩

/-- The map `fileStatus` builds by folding over the status lines sends
each name to exactly the codes of the lines that normalize to that name,
in input order. -/
theorem gitStatusMap_eq_filterMap (rel : String → String → String)
    (curdir : String) (lines : List String) (name : String) :
    gitStatusMap rel curdir lines name
      = lines.filterMap (fun line =>
          match statusLineEntry rel curdir line with
          | some (key, st) => if key = name then some st else none
          | none => none) := by
  have key : ∀ (ls : List String) (m : String → List String),
      (ls.foldl
          (fun m line =>
            match statusLineEntry rel curdir line with
            | some (key, st) => fun k => if k = key then m k ++ [st] else m k
            | none => m) m) name
        = m name ++ ls.filterMap (fun line =>
            match statusLineEntry rel curdir line with
            | some (key, st) => if key = name then some st else none
            | none => none) := by
    intro ls
    induction ls with
    | nil => intro m; simp
    | cons l rest ih =>
      intro m
      cases h : statusLineEntry rel curdir l with
      | none => simp only [List.foldl_cons, List.filterMap_cons, h]; rw [ih]
      | some p =>
        obtain ⟨k0, st0⟩ := p
        by_cases hk : k0 = name
        · subst hk
          simp only [List.foldl_cons, List.filterMap_cons, h, if_pos rfl]
          rw [ih]
          simp
        · have hk' : ¬name = k0 := fun e => hk e.symm
          simp only [List.foldl_cons, List.filterMap_cons, h, if_neg hk, if_neg hk']
          rw [ih]
          rw [if_neg hk']
  unfold gitStatusMap
  rw [key lines (fun _ => [])]
  simp

/-- C6. Feeding the raw porcelain status lines in any order yields the
same display string for every entry name: the per-name code multiset is
permutation-invariant, and sorting followed by deduplication and
comma-joining is determined by the multiset. -/
theorem C6_status_display_permutation_invariant
    (rel : String → String → String) (curdir name : String)
    (l₁ l₂ : List String) (h : l₁.Perm l₂) :
    fileStatusDisplay rel curdir l₁ name = fileStatusDisplay rel curdir l₂ name := by
  have hp : (gitStatusMap rel curdir l₁ name).Perm (gitStatusMap rel curdir l₂ name) := by
    rw [gitStatusMap_eq_filterMap, gitStatusMap_eq_filterMap]
    exact h.filterMap _
  have hs1 : List.Sorted (fun a b : String => a ≤ b)
      (sortStrings (gitStatusMap rel curdir l₁ name)) :=
    List.sorted_insertionSort _ _
  have hs2 : List.Sorted (fun a b : String => a ≤ b)
      (sortStrings (gitStatusMap rel curdir l₂ name)) :=
    List.sorted_insertionSort _ _
  have hps : (sortStrings (gitStatusMap rel curdir l₁ name)).Perm
      (sortStrings (gitStatusMap rel curdir l₂ name)) :=
    ((List.perm_insertionSort _ _).trans hp).trans
      (List.perm_insertionSort _ _).symm
  have hsort : sortStrings (gitStatusMap rel curdir l₁ name)
      = sortStrings (gitStatusMap rel curdir l₂ name) :=
    List.eq_of_perm_of_sorted hps hs1 hs2
  unfold fileStatusDisplay
  by_cases hg : name = ".git"
  · simp [hg]
  · simp only [hg, if_false]
    cases h1 : gitStatusMap rel curdir l₁ name with
    | nil =>
      have h2 : gitStatusMap rel curdir l₂ name = [] := by
        rw [h1] at hp
        exact hp.nil_eq.symm
      rw [h1] at hsort
      rw [h2]
    | cons a as =>
      cases h2 : gitStatusMap rel curdir l₂ name with
      | nil =>
        rw [h1, h2] at hp
        exact (List.cons_ne_nil a as hp.eq_nil).elim
      | cons b bs =>
        rw [h1, h2] at hsort
        simp only
        rw [hsort]

/-- Witness for C6: two orderings of the same two status lines produce
the same display string for the entry `a.go` (with `filepath.Rel`
instantiated to a concrete function). -/
theorem C6_status_display_permutation_invariant_witness :
    (["M  a.go", "A  b.go"] : List String).Perm ["A  b.go", "M  a.go"] ∧
    fileStatusDisplay (fun _ s => s) "." ["M  a.go", "A  b.go"] "a.go"
      = fileStatusDisplay (fun _ s => s) "." ["A  b.go", "M  a.go"] "a.go" :=
  ⟨by decide,
    C6_status_display_permutation_invariant (fun _ s => s) "." "a.go"
      ["M  a.go", "A  b.go"] ["A  b.go", "M  a.go"] (by decide)⟩

/-- The map `parseDiffStat` builds by folding over the diff lines sends
each name to exactly the `(plus, minus)` pairs of the lines that parse to
that name, in input order. -/
theorem diffStatsMap_eq_filterMap (lines : List String) (name : String) :
    diffStatsMap lines name
      = lines.filterMap (fun line =>
          match parseDiffLine line with
          | some (path, plus, minus) =>
            if path = name then some (plus, minus) else none
          | none => none) := by
  have key : ∀ (ls : List String) (m : String → List (Int × Int)),
      (ls.foldl
          (fun m line =>
            match parseDiffLine line with
            | some (path, plus, minus) =>
              fun k => if k = path then m k ++ [(plus, minus)] else m k
            | none => m) m) name
        = m name ++ ls.filterMap (fun line =>
            match parseDiffLine line with
            | some (path, plus, minus) =>
              if path = name then some (plus, minus) else none
            | none => none) := by
    intro ls
    induction ls with
    | nil => intro m; simp
    | cons l rest ih =>
      intro m
      cases h : parseDiffLine l with
      | none => simp only [List.foldl_cons, List.filterMap_cons, h]; rw [ih]
      | some p =>
        obtain ⟨k0, a0, b0⟩ := p
        by_cases hk : k0 = name
        · subst hk
          simp only [List.foldl_cons, List.filterMap_cons, h, if_pos rfl]
          rw [ih]
          simp
        · have hk' : ¬name = k0 := fun e => hk e.symm
          simp only [List.foldl_cons, List.filterMap_cons, h, if_neg hk, if_neg hk']
          rw [ih]
          rw [if_neg hk']
  unfold diffStatsMap
  rw [key lines (fun _ => [])]
  simp

/-- Selecting with the key-test inside the `filterMap` is the same as
filtering the parsed lines by path and projecting the counts. -/
theorem filterMap_matched_eq (lines : List String) (name : String) :
    lines.filterMap (fun line =>
        match parseDiffLine line with
        | some (path, plus, minus) =>
          if path = name then some (plus, minus) else none
        | none => none)
      = matchedDiffs lines name := by
  induction lines with
  | nil => rfl
  | cons l rest ih =>
    unfold matchedDiffs at ih ⊢
    cases h : parseDiffLine l with
    | none => simp [List.filterMap_cons, h, ih]
    | some p =>
      obtain ⟨k0, a0, b0⟩ := p
      by_cases hk : k0 = name
      · simp [List.filterMap_cons, h, hk, ih]
      · simp [List.filterMap_cons, h, hk, ih]

/-- Accumulating pairs componentwise is componentwise summation. -/
theorem foldl_pair_sum (l : List (Int × Int)) :
    ∀ init : Int × Int,
      l.foldl (fun acc d => (acc.1 + d.1, acc.2 + d.2)) init
        = (init.1 + (l.map Prod.fst).sum, init.2 + (l.map Prod.snd).sum) := by
  induction l with
  | nil => intro init; simp
  | cons d rest ih =>
    intro init
    rw [List.foldl_cons, ih]
    simp [add_assoc]

/-- Closed form of the aggregate: `none` when no line matches, otherwise
the componentwise sum of all matching `(plus, minus)` pairs. -/
theorem diffSumFor_closed (lines : List String) (name : String) :
    diffSumFor lines name
      = match matchedDiffs lines name with
        | [] => none
        | stats => some ((stats.map Prod.fst).sum, (stats.map Prod.snd).sum) := by
  unfold diffSumFor
  rw [diffStatsMap_eq_filterMap, filterMap_matched_eq]
  cases hA : matchedDiffs lines name with
  | nil => rfl
  | cons d rest =>
    simp only
    rw [foldl_pair_sum]
    simp

/-- C7. (1) Whenever `parseDiffStat` records a `diffSum` for an entry, it
is the exact componentwise sum of the `(added, removed)` counts over all
diff lines whose first path component equals the entry's name. (2)
Consequently the aggregation is split-invariant: replacing one diff line
by two lines with the same path whose counts sum to the original's leaves
every entry's aggregate unchanged. -/
theorem C7_diff_aggregate_is_exact_sum :
    (∀ (lines : List String) (name : String) (p m : Int),
      diffSumFor lines name = some (p, m) →
        p = ((matchedDiffs lines name).map Prod.fst).sum ∧
        m = ((matchedDiffs lines name).map Prod.snd).sum) ∧
    (∀ (pre post : List String) (l l₁ l₂ pt : String) (a b a₁ b₁ a₂ b₂ : Int),
      parseDiffLine l = some (pt, a, b) →
      parseDiffLine l₁ = some (pt, a₁, b₁) →
      parseDiffLine l₂ = some (pt, a₂, b₂) →
      a₁ + a₂ = a → b₁ + b₂ = b →
      ∀ name : String,
        diffSumFor (pre ++ l₁ :: l₂ :: post) name
          = diffSumFor (pre ++ l :: post) name) := by
  have happ : ∀ (X Y : List String) (name : String),
      matchedDiffs (X ++ Y) name = matchedDiffs X name ++ matchedDiffs Y name := by
    intro X Y name
    simp [matchedDiffs, List.filterMap_append, List.filter_append]
  constructor
  · intro lines name p m h
    rw [diffSumFor_closed] at h
    cases hA : matchedDiffs lines name with
    | nil => rw [hA] at h; exact absurd h (by simp)
    | cons d rest =>
      rw [hA] at h
      simp only [Option.some.injEq, Prod.mk.injEq] at h
      exact ⟨h.1.symm, h.2.symm⟩
  · intro pre post l l₁ l₂ pt a b a₁ b₁ a₂ b₂ h h1 h2 ha hb name
    rw [diffSumFor_closed, diffSumFor_closed, happ, happ]
    by_cases hn : pt = name
    · subst hn
      have e2 : matchedDiffs (l₁ :: l₂ :: post) pt
          = (a₁, b₁) :: (a₂, b₂) :: matchedDiffs post pt := by
        simp [matchedDiffs, List.filterMap_cons, h1, h2]
      have e1 : matchedDiffs (l :: post) pt = (a, b) :: matchedDiffs post pt := by
        simp [matchedDiffs, List.filterMap_cons, h]
      rw [e1, e2]
      cases hP : matchedDiffs pre pt with
      | nil =>
        simp only [List.nil_append]
        simp only [List.map_cons, List.sum_cons, Option.some.injEq, Prod.mk.injEq]
        constructor <;> omega
      | cons q qs =>
        simp only [List.cons_append]
        simp only [List.map_cons, List.sum_cons, List.map_append, List.sum_append,
          List.map_cons, List.sum_cons, Option.some.injEq, Prod.mk.injEq]
        constructor <;> omega
    · have e2 : matchedDiffs (l₁ :: l₂ :: post) name = matchedDiffs post name := by
        simp [matchedDiffs, List.filterMap_cons, h1, h2, hn]
      have e1 : matchedDiffs (l :: post) name = matchedDiffs post name := by
        simp [matchedDiffs, List.filterMap_cons, h, hn]
      rw [e1, e2]

/-- Witness for C7: a concrete aggregate equals the matched-line sum, and
splitting `"2\t1\ta.go"` into `"1\t0\ta.go"` and `"1\t1\ta.go"` leaves
the aggregate of `a.go` unchanged. -/
theorem C7_diff_aggregate_is_exact_sum_witness :
    (diffSumFor ["2\t1\ta.go", "4\t0\ta.go", "7\t7\tb.go"] "a.go" = some (6, 1) ∧
      ((6 : Int) = ((matchedDiffs ["2\t1\ta.go", "4\t0\ta.go", "7\t7\tb.go"] "a.go").map
          Prod.fst).sum ∧
        (1 : Int) = ((matchedDiffs ["2\t1\ta.go", "4\t0\ta.go", "7\t7\tb.go"] "a.go").map
          Prod.snd).sum)) ∧
    diffSumFor ["1\t0\ta.go", "1\t1\ta.go"] "a.go"
      = diffSumFor ["2\t1\ta.go"] "a.go" :=
  ⟨⟨by decide,
      C7_diff_aggregate_is_exact_sum.1 ["2\t1\ta.go", "4\t0\ta.go", "7\t7\tb.go"]
        "a.go" 6 1 (by decide)⟩,
    C7_diff_aggregate_is_exact_sum.2 [] [] "2\t1\ta.go" "1\t0\ta.go" "1\t1\ta.go"
      "a.go" 2 1 1 0 1 1 (by decide) (by decide) (by decide) (by decide) (by decide)
      "a.go"⟩

end GitLs
